import Mathlib

/-!
Verification of the batch job execution engine of the image generation CLI
(src/skills/imagegen/scripts/image_gen.py).  Python functions are embedded
shallowly: dictionaries with a fixed key set become functions from a key type
into Option values, exceptions become an explicit error type distinguishing
SystemExit from ordinary Exception instances, filesystem paths become lists
of components (each component a list of characters), and float second counts
become rationals (every quantity the code computes with them, namely
attribute values, parsed integers and min 60 (2 ^ k), is exact in both).
-/

namespace ImageGen

/-! ## Field and payload keys

The augmentation field names fixed by the source (the keys of the dictionary
built by the function named fields from args) and the request parameter names
of the base payload built in the batch runner. -/

inductive FieldKey where
  | useCase | scene | subject | style | composition | lighting
  | palette | materials | text | constraints | negative
deriving DecidableEq

inductive PayloadKey where
  | model | n | size | quality | background
  | outputFormat | outputCompression | moderation
deriving DecidableEq

/-- Embedding of the merge helper of the source: copy dst, then write every
key of src whose value is not None.  A dictionary with a fixed key set is a
function into Option; absent and None coincide for every use in the source. -/
def mergeNonNull {K V : Type} (dst src : K → Option V) : K → Option V :=
  fun k =>
    match src k with
    | some v => some v
    | none => dst k

/-- The field resolution performed per job by the batch runner: first merge
the base CLI fields with the nested fields mapping of the job, then merge the
result with the flat top level keys of the job. -/
def resolveJobFields {V : Type} (base jobFields jobFlat : FieldKey → Option V) :
    FieldKey → Option V :=
  mergeNonNull (mergeNonNull base jobFields) jobFlat

/-- The payload resolution performed per job: merge the base payload with the
flat top level payload keys of the job. -/
def resolveJobPayload {V : Type} (base jobFlat : PayloadKey → Option V) :
    PayloadKey → Option V :=
  mergeNonNull base jobFlat

/-! ## Prompt augmentation -/

/-- The augmentation hint fields of one request, each possibly unset. -/
structure Fields where
  useCase : Option String
  scene : Option String
  subject : Option String
  style : Option String
  composition : Option String
  lighting : Option String
  palette : Option String
  materials : Option String
  text : Option String
  constraints : Option String
  negative : Option String

/-- One conditional section append of the augmentation function: a set and
nonempty field value contributes one section line, anything else contributes
nothing.  The post argument carries the closing quote of the verbatim text
section and is empty for every other section. -/
def sectionOpt (pre post : String) (v : Option String) : List String :=
  match v with
  | none => []
  | some s => if s = "" then [] else [pre ++ s ++ post]

/-- The section list built by the augmentation function, in source order:
use case first, then the always present primary request, then the remaining
optional sections. -/
def augmentSections (prompt : String) (f : Fields) : List String :=
  sectionOpt "Use case: " "" f.useCase
    ++ ["Primary request: " ++ prompt]
    ++ sectionOpt "Scene/background: " "" f.scene
    ++ sectionOpt "Subject: " "" f.subject
    ++ sectionOpt "Style/medium: " "" f.style
    ++ sectionOpt "Composition/framing: " "" f.composition
    ++ sectionOpt "Lighting/mood: " "" f.lighting
    ++ sectionOpt "Color palette: " "" f.palette
    ++ sectionOpt "Materials/textures: " "" f.materials
    ++ sectionOpt "Text (verbatim): \"" "\"" f.text
    ++ sectionOpt "Constraints: " "" f.constraints
    ++ sectionOpt "Avoid: " "" f.negative

/-- Embedding of the augmentation entry point: with augmentation disabled the
prompt is returned unchanged, otherwise the sections are joined by newlines. -/
def augmentPromptFields (augment : Bool) (prompt : String) (f : Fields) : String :=
  if augment then String.intercalate "\n" (augmentSections prompt f) else prompt

/-- One optional section in the formulation of the specification: the section
text exactly when the field is set and nonempty. -/
def optSection (pre post : String) (v : Option String) : Option String :=
  match v with
  | none => none
  | some s => if s = "" then none else some (pre ++ s ++ post)

/-- The section list as the specification words it: a fixed ordered list of
optional sections with the primary request always present, collected in
order. -/
def specAugmentSections (prompt : String) (f : Fields) : List String :=
  List.filterMap id
    [optSection "Use case: " "" f.useCase,
     some ("Primary request: " ++ prompt),
     optSection "Scene/background: " "" f.scene,
     optSection "Subject: " "" f.subject,
     optSection "Style/medium: " "" f.style,
     optSection "Composition/framing: " "" f.composition,
     optSection "Lighting/mood: " "" f.lighting,
     optSection "Color palette: " "" f.palette,
     optSection "Materials/textures: " "" f.materials,
     optSection "Text (verbatim): \"" "\"" f.text,
     optSection "Constraints: " "" f.constraints,
     optSection "Avoid: " "" f.negative]

/-! ## Errors

A Python exception observed by the retry controller, reduced to the features
the source inspects: the class name, the str rendering, and the two numeric
retry hint attributes (none models an absent or non numeric attribute). -/

structure PyExc where
  className : String
  message : String
  retryAfterAttr : Option ℚ
  retryAfterSecondsAttr : Option ℚ
deriving DecidableEq

/-- What can escape a job body: an ordinary Exception instance, or a
SystemExit carrying an exit code, as raised by the die helper.  SystemExit
derives from BaseException, not Exception, so an except Exception clause
does not catch it. -/
inductive PyErr where
  | exc (e : PyExc)
  | systemExit (code : Nat)
deriving DecidableEq

/-! ## Per job error scoping and the batch exit code

The body of one job task (payload validation, the remote call with retries,
decoding and writing) is abstracted as its outcome: ok, or an escaping
PyErr.  The run job wrapper embeds the try and except Exception block of the
source: an ordinary exception in best effort mode is recorded as the pair of
sequence index and message, in fail fast mode it is re-raised; a SystemExit
is never caught and always escapes. -/

def runJob (failFast : Bool) (i : Nat) (body : Except PyErr Unit) :
    Except PyErr (Nat × Option String) :=
  match body with
  | .ok _ => .ok (i, none)
  | .error (.systemExit c) => .error (.systemExit c)
  | .error (.exc e) =>
      if failFast then .error (.exc e) else .ok (i, some e.message)

/-- Whether a job body sets the shared any failed flag: the flag assignment
sits inside the except Exception clause, so only ordinary exceptions set it. -/
def setsAnyFailed (body : Except PyErr Unit) : Bool :=
  match body with
  | .error (.exc _) => true
  | _ => false

/-- The per job outcomes of one batch run, one entry per job in input order,
job i labelled with sequence index i plus one. -/
def batchOutcomes (failFast : Bool) (bodies : List (Except PyErr Unit)) :
    List (Except PyErr (Nat × Option String)) :=
  (List.range bodies.length).map
    (fun i => runJob failFast (i + 1) (bodies.getD i (Except.ok ())))

/-- The process exit status of the batch subcommand: any error escaping a
task aborts the run and the process exits 1 (a SystemExit raised by the die
helper carries code 1, and an uncaught ordinary exception also terminates
the interpreter with status 1); otherwise the run returns 1 when the any
failed flag was set and 0 when it was not, and the wrapper raises SystemExit
on a nonzero return. -/
def runGenerateBatchExit (failFast : Bool) (bodies : List (Except PyErr Unit)) : Nat :=
  if (batchOutcomes failFast bodies).any (fun o => !o.isOk) then 1
  else if bodies.any setsAnyFailed then 1
  else 0

/-! ## Error classification -/

/-- Whether the first list occurs at the start of the second. -/
def startsWithList : List Char → List Char → Bool
  | [], _ => true
  | _ :: _, [] => false
  | p :: ps, c :: cs => c = p && startsWithList ps cs

/-- Whether the first list occurs somewhere inside the second. -/
def hasInfixList (pat : List Char) : List Char → Bool
  | [] => startsWithList pat []
  | c :: rest => startsWithList pat (c :: rest) || hasInfixList pat rest

/-- Python substring membership, the in operator on strings. -/
def containsSub (s pat : String) : Bool :=
  hasInfixList pat.data s.data

/-- The str lower method, applied character by character (the class names
and marker substrings the source inspects are ASCII, where the two notions
of lowercasing coincide). -/
def strLower (s : String) : String :=
  String.mk (s.data.map Char.toLower)

instance {ε α : Type} [DecidableEq ε] [DecidableEq α] : DecidableEq (Except ε α) :=
  fun a b => by
    cases a <;> cases b
    case error.error x y => exact decidable_of_iff (x = y) (by simp)
    case ok.ok x y => exact decidable_of_iff (x = y) (by simp)
    all_goals exact isFalse (by simp)

/-- Embedding of the rate limit test of the source: the lowercased class
name contains ratelimit or rate underscore limit, or the lowercased message
contains 429, rate limit, or too many requests. -/
def isRateLimitError (e : PyExc) : Bool :=
  let name := strLower e.className
  if containsSub name "ratelimit" || containsSub name "rate_limit" then true
  else
    let msg := strLower e.message
    containsSub msg "429" || containsSub msg "rate limit"
      || containsSub msg "too many requests"

/-- Embedding of the transient test of the source: rate limited, or the
lowercased class name contains timeout, timedout or tempor, or the
lowercased message contains timeout, timed out or connection reset. -/
def isTransientError (e : PyExc) : Bool :=
  if isRateLimitError e then true
  else
    let name := strLower e.className
    if containsSub name "timeout" || containsSub name "timedout"
        || containsSub name "tempor" then true
    else
      let msg := strLower e.message
      containsSub msg "timeout" || containsSub msg "timed out"
        || containsSub msg "connection reset"

/-- The transient classification as claim C4 words it: rate limited, or a
timeout (signalled by the class name or the message), or a connection reset;
written from the claim for comparison with the source function. -/
def specTransientC4 (e : PyExc) : Bool :=
  isRateLimitError e
    || containsSub (strLower e.className) "timeout"
    || containsSub (strLower e.className) "timedout"
    || containsSub (strLower e.message) "timeout"
    || containsSub (strLower e.message) "timed out"
    || containsSub (strLower e.message) "connection reset"

/-! ## Retry after extraction

The regex retry dash or space after, separators colon equals or space, then
digits with an optional fractional part, is embedded as an explicit matcher
over the character list.  The raw pattern of the source spells the fraction
as backslash backslash dot, so the regex engine requires a literal backslash
followed by an arbitrary character before the fractional digits; when that
branch does match, the captured text contains the backslash and the float
conversion of the source raises and yields None.  The float conversion is
therefore modelled as: all digits parse to their value, anything else is
None (every reachable capture is either all digits or contains the
backslash). -/

def isSepChar (c : Char) : Bool := c = ':' || c = '=' || c = ' '

/-- Strip a literal pattern from the front of the list. -/
def stripPre : List Char → List Char → Option (List Char)
  | [], l => some l
  | _ :: _, [] => none
  | p :: ps, c :: cs => if c = p then stripPre ps cs else none

/-- Try to match the retry after regex at the start of the list, returning
the captured group. -/
def matchRetryAfterAt (l : List Char) : Option (List Char) :=
  match stripPre ("retry".data) l with
  | none => none
  | some r1 =>
    match r1 with
    | [] => none
    | c :: r2 =>
      if c = '-' || c = ' ' then
        match stripPre ("after".data) r2 with
        | none => none
        | some r3 =>
          if (r3.takeWhile isSepChar) = [] then none
          else
            let r4 := r3.dropWhile isSepChar
            let d1 := r4.takeWhile Char.isDigit
            if d1 = [] then none
            else
              match r4.dropWhile Char.isDigit with
              | '\\' :: c2 :: r6 =>
                if c2 ≠ '\n' && (r6.takeWhile Char.isDigit) ≠ [] then
                  some (d1 ++ '\\' :: c2 :: r6.takeWhile Char.isDigit)
                else some d1
              | _ => some d1
      else none

/-- Leftmost regex search: try every start position from the left. -/
def searchRetryAfter : List Char → Option (List Char)
  | [] => none
  | c :: rest =>
    match matchRetryAfterAt (c :: rest) with
    | some g => some g
    | none => searchRetryAfter rest

/-- Numeric value of a digit string. -/
def natFromDigits (l : List Char) : Nat :=
  l.foldl (fun a c => 10 * a + (c.toNat - 48)) 0

/-- Model of the float conversion applied to the captured group, see the
section comment. -/
def pyFloatOfCapture (l : List Char) : Option ℚ :=
  if l ≠ [] && l.all Char.isDigit then some (natFromDigits l : ℚ) else none

/-- One attribute probe of the extraction loop: a numeric value that is
nonnegative is accepted, anything else falls through. -/
def attrCandidate : Option ℚ → Option ℚ
  | some v => if 0 ≤ v then some v else none
  | none => none

/-- Embedding of the retry after extraction: probe the retry after
attribute, then the retry after seconds attribute, then search the message
for the retry after pattern (the search runs case insensitively, modelled by
lowercasing the message; digits are unaffected by lowercasing). -/
def extractRetryAfterSeconds (e : PyExc) : Option ℚ :=
  match attrCandidate e.retryAfterAttr with
  | some v => some v
  | none =>
    match attrCandidate e.retryAfterSecondsAttr with
    | some v => some v
    | none =>
      match searchRetryAfter (strLower e.message).data with
      | some g => pyFloatOfCapture g
      | none => none

/-! ## The retry controller -/

/-- The backoff computed for a retried attempt: the extracted hint when one
is available, otherwise min 60 (2 ^ attempt) seconds. -/
def backoffDelay (e : PyExc) (attempt : Nat) : ℚ :=
  match extractRetryAfterSeconds e with
  | some r => r
  | none => min 60 ((2 : ℚ) ^ attempt)

/-- The error raised after the loop when no attempt ran, reachable only with
zero attempts. -/
def unknownRuntimeError : PyExc :=
  { className := "RuntimeError", message := "unknown error",
    retryAfterAttr := none, retryAfterSecondsAttr := none }

/-- The attempt loop of the retry controller, started at a given one based
attempt number.  The remote call behaviour is a function from the attempt
number to its outcome.  Along with the result, the list of backoff delays
slept through is returned, in order. -/
def retryGo {α : Type} (call : Nat → Except PyExc α) (attempts attempt : Nat) :
    Except PyExc α × List ℚ :=
  if _hgt : attempts < attempt then (.error unknownRuntimeError, [])
  else
    match call attempt with
    | .ok v => (.ok v, [])
    | .error e =>
      if isTransientError e = false then (.error e, [])
      else if heq : attempt = attempts then (.error e, [])
      else
        let s := backoffDelay e attempt
        let r := retryGo call attempts (attempt + 1)
        (r.1, s :: r.2)
termination_by attempts + 1 - attempt
decreasing_by omega

/-- Embedding of the retry controller entry point: run the loop from
attempt 1. -/
def generateOneWithRetries {α : Type} (call : Nat → Except PyExc α)
    (attempts : Nat) : Except PyExc α × List ℚ :=
  retryGo call attempts 1

/-- Claim C3 witness behaviour: transient rate limit errors on the first two
attempts, success on the third. -/
def witnessTransientExc : PyExc :=
  { className := "RateLimitError", message := "429 too many requests",
    retryAfterAttr := none, retryAfterSecondsAttr := none }

/-- Claim C3 witness behaviour function. -/
def witnessCallC3 : Nat → Except PyExc Nat :=
  fun a => if a ≤ 2 then .error witnessTransientExc else .ok 42

/-- Claim C3 witness behaviour that fails on every attempt. -/
def witnessCallC3Fail : Nat → Except PyExc Nat :=
  fun _ => .error witnessTransientExc

/-- Claim C4 witness exception, fatal for the classifier. -/
def witnessFatalExc : PyExc :=
  { className := "BadRequestError", message := "invalid size",
    retryAfterAttr := none, retryAfterSecondsAttr := none }

/-- Claim C4 witness behaviour: one transient failure, then a fatal error. -/
def witnessCallC4 : Nat → Except PyExc Nat :=
  fun a => if a ≤ 1 then .error witnessTransientExc else .error witnessFatalExc

/-- Claim C5 witness exceptions: one with an explicit numeric hint, one with
a textual hint, one with neither. -/
def witnessHintAttrExc : PyExc :=
  { className := "RateLimitError", message := "429",
    retryAfterAttr := some 7, retryAfterSecondsAttr := none }

/-- Claim C5 witness exception with a textual retry after hint. -/
def witnessHintTextExc : PyExc :=
  { className := "RateLimitError", message := "Rate limit: retry-after: 12",
    retryAfterAttr := none, retryAfterSecondsAttr := none }

/-- Claim C5 witness behaviour: hint bearing transient errors on attempts 1
and 2, no hint on attempt 3. -/
def witnessCallC5 : Nat → Except PyExc Nat :=
  fun a =>
    if a = 1 then .error witnessHintAttrExc
    else if a = 2 then .error witnessHintTextExc
    else if a = 3 then .error witnessTransientExc
    else .ok 0

/-- The errors observed by the claim C5 witness behaviour, per attempt. -/
def witnessCallC5Errors : Nat → PyExc :=
  fun a =>
    if a = 1 then witnessHintAttrExc
    else if a = 2 then witnessHintTextExc
    else witnessTransientExc

/-! ## Paths

A pure path is modelled as its list of components, each component a list of
characters, mirroring the parsed parts of a pathlib PurePath: parsing splits
on slashes and drops empty and single dot components.  All planned output
paths are built as the run output directory, itself an opaque component
list, extended by exactly one final component. -/

/-- A filesystem path as a list of components. -/
abbrev PyPath : Type := List (List Char)

/-- Split a character list at every slash. -/
def splitSlash : List Char → List (List Char)
  | [] => [[]]
  | c :: rest =>
    match splitSlash rest with
    | [] => [[]]
    | h :: t => if c = '/' then [] :: h :: t else (c :: h) :: t

/-- The parsed components of a path string: slash separated pieces with
empty pieces and single dot pieces dropped, as pathlib parses them. -/
def pathParts (s : String) : List (List Char) :=
  (splitSlash s.data).filter (fun p => decide (p ≠ [] ∧ p ≠ ['.']))

/-- The name property of a pathlib path: the last parsed component, empty
for a path with no components. -/
def pathNameOf (s : String) : List Char :=
  match (pathParts s).getLast? with
  | some nm => nm
  | none => []

/-- The stem and suffix properties of pathlib, computed on one name
component: the suffix starts at the last dot provided that dot is neither
the first nor the last character of the name; otherwise the suffix is empty
and the stem is the whole name. -/
def nameSuffixStem (name : List Char) : List Char × List Char :=
  let sp := name.reverse.span (fun c => c != '.')
  match sp.2 with
  | [] => (name, [])
  | _ :: restRev =>
    if restRev = [] then (name, [])
    else if sp.1 = [] then (name, [])
    else (restRev.reverse, '.' :: sp.1.reverse)

/-- The stem of one name component. -/
def nameStem (name : List Char) : List Char := (nameSuffixStem name).1

/-- The suffix of one name component. -/
def nameSuffix (name : List Char) : List Char := (nameSuffixStem name).2

/-- Decimal rendering of a natural number, as the str builtin renders it. -/
def natDigits (n : Nat) : List Char :=
  if n < 10 then [Nat.digitChar n]
  else natDigits (n / 10) ++ [Nat.digitChar (n % 10)]
decreasing_by exact Nat.div_lt_self (by omega) (by omega)

/-- The format specifier 03d: the decimal rendering left padded with zeros
to width three. -/
def pad3 (n : Nat) : List Char :=
  if n < 10 then '0' :: '0' :: natDigits n
  else if n < 100 then '0' :: natDigits n
  else natDigits n

/-- Lowercase alphanumeric test, the character class the slug keeps. -/
def isLowerAlnum (c : Char) : Bool :=
  ('a' ≤ c && c ≤ 'z') || ('0' ≤ c && c ≤ '9')

/-- The first substitution of the slug helper: every maximal run of
characters outside the kept class becomes a single hyphen.  The flag records
whether the previous character was part of such a run. -/
def collapseNonAlnum : Bool → List Char → List Char
  | _, [] => []
  | inRun, c :: rest =>
    if isLowerAlnum c then c :: collapseNonAlnum false rest
    else if inRun then collapseNonAlnum true rest
    else '-' :: collapseNonAlnum true rest

/-- The second substitution of the slug helper: every run of two or more
hyphens becomes a single hyphen. -/
def collapseHyphens : Bool → List Char → List Char
  | _, [] => []
  | inRun, c :: rest =>
    if c = '-' then
      if inRun then collapseHyphens true rest
      else '-' :: collapseHyphens true rest
    else c :: collapseHyphens false rest

/-- Drop the given character from both ends, the strip method with one
argument. -/
def trimChar (x : Char) (l : List Char) : List Char :=
  ((l.dropWhile (fun c => c = x)).reverse.dropWhile (fun c => c = x)).reverse

/-- Drop whitespace from both ends, the strip method without arguments. -/
def trimWs (l : List Char) : List Char :=
  ((l.dropWhile Char.isWhitespace).reverse.dropWhile Char.isWhitespace).reverse

/-- Embedding of the slug helper: strip, lowercase, collapse non
alphanumeric runs to hyphens, collapse hyphen runs, strip hyphens, truncate
to sixty characters, with the literal job as fallback for an empty slug. -/
def slugify (l : List Char) : List Char :=
  let v := (trimWs l).map Char.toLower
  let v := collapseNonAlnum false v
  let v := collapseHyphens false v
  let v := trimChar '-' v
  if v = [] then ['j', 'o', 'b'] else v.take 60

/-- Python truthiness of the optional explicit output hint: an empty string
behaves like an absent hint. -/
def explicitHint : Option String → Option String
  | some s => if s = "" then none else some s
  | none => none

/-- The base name synthesized for a job without an explicit hint: the zero
padded sequence index, a hyphen, the slug of the first eighty prompt
characters, and the format extension. -/
def noHintBase (fmt : String) (idx : Nat) (prompt : String) : List Char :=
  pad3 idx ++ '-' :: slugify (prompt.data.take 80) ++ '.' :: fmt.data

/-- The base name chosen for a job.  With an explicit hint the base is the
hint: a missing extension is replaced by the format extension (a mismatched
one is kept, the warning is not modelled), and only the name component of
the hint survives the rebase under the output directory; the with suffix
call of pathlib raises on an empty name, modelled as none.  Without a hint
the base name is synthesized from the index and the prompt slug. -/
def jobBaseName (fmt : String) (explicitOut : Option String) (idx : Nat)
    (prompt : String) : Option (List Char) :=
  match explicitHint explicitOut with
  | some s =>
    let nm := pathNameOf s
    if nameSuffix nm = [] then
      if nm = [] then none
      else some (nm ++ '.' :: fmt.data)
    else some nm
  | none => some (noHintBase fmt idx prompt)

/-- Embedding of the per job output planner: the base name rebased under the
output directory; for n other than one, the sibling names insert a hyphen
and the one based image number before the extension. -/
def jobOutputPaths (outDir : PyPath) (fmt : String) (idx : Nat)
    (prompt : String) (n : Nat) (explicitOut : Option String) :
    Option (List PyPath) :=
  match jobBaseName fmt explicitOut idx prompt with
  | none => none
  | some base =>
    if n = 1 then some [outDir ++ [base]]
    else some ((List.range n).map
        (fun k => outDir ++ [nameStem base ++ '-' :: natDigits (k + 1) ++ nameSuffix base]))

/-- One batch job as the planner sees it: prompt, image count, optional
explicit output hint. -/
abbrev JobSpec : Type := String × Nat × Option String

/-- All paths planned for a batch, jobs enumerated from sequence index
one. -/
def batchPlannedPaths (outDir : PyPath) (fmt : String) (jobs : List JobSpec) :
    List PyPath :=
  (List.range jobs.length).flatMap
    (fun i =>
      (jobOutputPaths outDir fmt (i + 1) (jobs.getD i ("", 1, none)).1
        (jobs.getD i ("", 1, none)).2.1 (jobs.getD i ("", 1, none)).2.2).getD [])

/-! ## The image writer

The decode and write loop walks the returned base64 images with their index
and stops silently as soon as the index reaches the number of planned
output paths.  A destination that already exists fails the job unless force
is set; the filesystem is modelled as a predicate on paths for the files
present before the call, extended by the files written earlier in the same
call.  The decoded bytes are irrelevant to the control flow and are not
modelled. -/

/-- The downscale sibling name: insert the suffix before the extension,
auto prefixing a hyphen when the suffix carries no leading separator. -/
def deriveDownscaleName (suffix : String) (nm : List Char) : List Char :=
  let sfx : List Char :=
    match suffix.data with
    | [] => []
    | c :: cs => if c = '-' || c = '_' then c :: cs else '-' :: c :: cs
  nameStem nm ++ sfx ++ nameSuffix nm

/-- The downscale sibling path, the with name call of the source. -/
def deriveDownscalePath (p : PyPath) (suffix : String) : PyPath :=
  p.dropLast ++ [deriveDownscaleName suffix (p.getLastD [])]

/-- The loop of the plain decode and write helper, carrying the written
files in reverse order. -/
def writeGo (images : List String) (idx : Nat) (outputs : List PyPath)
    (force : Bool) (exists0 : PyPath → Bool) (written : List PyPath) :
    Except String (List PyPath) :=
  match images with
  | [] => .ok written.reverse
  | _ :: rest =>
    if outputs.length ≤ idx then .ok written.reverse
    else if (exists0 (outputs.getD idx [])
        || written.contains (outputs.getD idx [])) && !force then
      .error "Output already exists"
    else writeGo rest (idx + 1) outputs force exists0 (outputs.getD idx [] :: written)

/-- Embedding of the plain decode and write helper, returning the list of
files written. -/
def decodeAndWrite (images : List String) (outputs : List PyPath)
    (force : Bool) (exists0 : PyPath → Bool) : Except String (List PyPath) :=
  writeGo images 0 outputs force exists0 []

/-- The loop of the decode, write and downscale helper: after each main
write, when a downscale dimension is configured, the derived sibling is
checked and written as well. -/
def writeDownGo (images : List String) (idx : Nat) (outputs : List PyPath)
    (force : Bool) (exists0 : PyPath → Bool) (downscaleMaxDim : Option Nat)
    (downscaleSuffix : String) (written : List PyPath) :
    Except String (List PyPath) :=
  match images with
  | [] => .ok written.reverse
  | _ :: rest =>
    if outputs.length ≤ idx then .ok written.reverse
    else if (exists0 (outputs.getD idx [])
        || written.contains (outputs.getD idx [])) && !force then
      .error "Output already exists"
    else
      match downscaleMaxDim with
      | none =>
        writeDownGo rest (idx + 1) outputs force exists0 none
          downscaleSuffix (outputs.getD idx [] :: written)
      | some d =>
        if (exists0 (deriveDownscalePath (outputs.getD idx []) downscaleSuffix)
            || (outputs.getD idx [] :: written).contains
                (deriveDownscalePath (outputs.getD idx []) downscaleSuffix))
            && !force then
          .error "Output already exists"
        else
          writeDownGo rest (idx + 1) outputs force exists0 (some d)
            downscaleSuffix
            (deriveDownscalePath (outputs.getD idx []) downscaleSuffix
              :: outputs.getD idx [] :: written)

/-- Embedding of the decode, write and downscale helper. -/
def decodeWriteAndDownscale (images : List String) (outputs : List PyPath)
    (force : Bool) (exists0 : PyPath → Bool) (downscaleMaxDim : Option Nat)
    (downscaleSuffix : String) : Except String (List PyPath) :=
  writeDownGo images 0 outputs force exists0 downscaleMaxDim downscaleSuffix []

lemma sectionOpt_eq_toList (pre post : String) (v : Option String) :
    sectionOpt pre post v = (optSection pre post v).toList := by
  cases v with
  | none => rfl
  | some s =>
    by_cases h : s = "" <;> simp [sectionOpt, optSection, h]

lemma filterMap_id_cons {α : Type} (o : Option α) (l : List (Option α)) :
    List.filterMap id (o :: l) = o.toList ++ List.filterMap id l := by
  cases o <;> simp

/-! ## Claim theorems for C1 and C7 -/

/-- Claim C1 counterexample: a job that sets the scene field to A inside its
nested fields mapping and to B as a flat top level key resolves scene to B,
the flat value, not to the nested override A as the claim demands. -/
theorem c1_counterexample :
    resolveJobFields (V := String) (fun _ => none)
      (fun k => if k = FieldKey.scene then some "A" else none)
      (fun k => if k = FieldKey.scene then some "B" else none)
      FieldKey.scene = some "B" := by
  rfl

/-- Claim C1 (amended): field resolution gives precedence to the flat top
level key of the job, then the nested fields override of the job, then the
CLI or global default, and a null or absent value never overrides an
inherited value; payload parameters resolve with the flat job key over the
global default, likewise never overridden by null or absent values. -/
theorem c1_merge_precedence {V : Type}
    (base jobFields jobFlat : FieldKey → Option V)
    (pbase pflat : PayloadKey → Option V) (k : FieldKey) (pk : PayloadKey) :
    resolveJobFields base jobFields jobFlat k
        = Option.or (jobFlat k) (Option.or (jobFields k) (base k))
      ∧ resolveJobPayload pbase pflat pk = Option.or (pflat pk) (pbase pk) := by
  constructor
  · cases h1 : jobFlat k <;> cases h2 : jobFields k <;>
      simp [resolveJobFields, mergeNonNull, h1, h2, Option.or]
  · cases h1 : pflat pk <;>
      simp [resolveJobPayload, mergeNonNull, h1, Option.or]

/-- Claim C7: with augmentation disabled the prompt is returned unchanged;
with augmentation enabled the result is the newline join of the fixed order
section list in which the primary request always occurs, and each optional
section occurs exactly when its field is set and nonempty (the filterMap
formulation makes the membership condition explicit); the rewrite is a pure
function of the prompt and the fields. -/
theorem c7_augmentation (p : String) (f : Fields) :
    augmentPromptFields false p f = p
      ∧ augmentPromptFields true p f
          = String.intercalate "\n" (specAugmentSections p f)
      ∧ ("Primary request: " ++ p) ∈ specAugmentSections p f := by
  refine ⟨rfl, ?_, ?_⟩
  · have h : augmentSections p f = specAugmentSections p f := by
      simp only [augmentSections, specAugmentSections, sectionOpt_eq_toList,
        filterMap_id_cons, List.filterMap_nil, List.append_nil, id_eq,
        List.append_assoc, Option.toList_some, List.singleton_append,
        List.cons_append]
    simp [augmentPromptFields, h]
  · refine List.mem_filterMap.mpr ?_
    exact ⟨some ("Primary request: " ++ p), by simp, rfl⟩

/-- Claim C2 counterexample: in best effort mode a job whose body raises
SystemExit with code 1, as the die helper does for a payload validation
failure or an output collision, has its failure escape the task instead of
being recorded as a per job outcome. -/
theorem c2_counterexample :
    runJob false 1 (Except.error (PyErr.systemExit 1))
        = Except.error (PyErr.systemExit 1)
      ∧ (runJob false 1 (Except.error (PyErr.systemExit 1))).isOk = false := by
  exact ⟨rfl, rfl⟩

/-- Claim C2 (amended): in best effort mode a job whose body raises an
ordinary Exception has the failure recorded as its sequence index plus the
error message and nothing propagates out of the task, and each job outcome
depends only on that job body, so other jobs are unaffected; but a failure
raised as SystemExit (payload validation and output collision both go
through the die helper) is not caught by the except Exception clause and
escapes the task even in best effort mode. -/
theorem c2_best_effort_scoping :
    (∀ (i : Nat) (e : PyExc),
        runJob false i (Except.error (PyErr.exc e)) = Except.ok (i, some e.message))
      ∧ (∀ (failFast : Bool) (bodies : List (Except PyErr Unit)) (i : Nat),
          i < bodies.length →
            (batchOutcomes failFast bodies).getD i (Except.ok (0, none))
              = runJob failFast (i + 1) (bodies.getD i (Except.ok ())))
      ∧ (∀ (i c : Nat),
          runJob false i (Except.error (PyErr.systemExit c))
            = Except.error (PyErr.systemExit c)) := by
  refine ⟨fun i e => rfl, ?_, fun i c => rfl⟩
  intro failFast bodies i hi
  simp [batchOutcomes, List.getD_eq_getElem?_getD, hi]

/-- Claim C9: the batch process exits with status 0 exactly when every job
body completed without raising; any recorded per job failure, and any fatal
error escaping a task, yields exit status 1, so the process never exits 0
while some job recorded Failed. -/
theorem c9_exit_status (failFast : Bool) (bodies : List (Except PyErr Unit)) :
    (runGenerateBatchExit failFast bodies = 0
        ↔ ∀ b ∈ bodies, b = Except.ok ())
      ∧ (runGenerateBatchExit failFast bodies = 0
          ∨ runGenerateBatchExit failFast bodies = 1) := by
  constructor
  · constructor
    · intro h0 b hb
      rcases List.mem_iff_getElem.mp hb with ⟨i, hi, rfl⟩
      by_contra hne
      have hbody : bodies.getD i (Except.ok ()) = bodies[i] := by
        simp [List.getD_eq_getElem?_getD, hi]
      rcases hcase : bodies[i] with er | u
      · have hmem : runJob failFast (i + 1) (bodies.getD i (Except.ok ()))
            ∈ batchOutcomes failFast bodies := by
          refine List.mem_map.mpr ⟨i, ?_, rfl⟩
          exact List.mem_range.mpr hi
        rcases er with e | c
        · rcases hff : failFast with _ | _
          · have hflag : bodies.any setsAnyFailed = true := by
              refine List.any_eq_true.mpr ⟨bodies[i], hb, ?_⟩
              rw [hcase]; rfl
            rw [runGenerateBatchExit, hflag] at h0
            split at h0 <;> simp_all
          · have hany : (batchOutcomes failFast bodies).any (fun o => !o.isOk) = true := by
              refine List.any_eq_true.mpr
                ⟨runJob failFast (i + 1) (bodies.getD i (Except.ok ())), hmem, ?_⟩
              rw [hbody, hcase, hff]; rfl
            rw [runGenerateBatchExit, hany] at h0
            simp at h0
        · have hany : (batchOutcomes failFast bodies).any (fun o => !o.isOk) = true := by
            refine List.any_eq_true.mpr
              ⟨runJob failFast (i + 1) (bodies.getD i (Except.ok ())), hmem, ?_⟩
            rw [hbody, hcase]; rfl
          rw [runGenerateBatchExit, hany] at h0
          simp at h0
      · exact hne (by rw [hcase])
    · intro hall
      have h1 : (batchOutcomes failFast bodies).any (fun o => !o.isOk) = false := by
        rw [List.any_eq_false]
        intro o ho
        rcases List.mem_map.mp ho with ⟨i, hir, rfl⟩
        have hi := List.mem_range.mp hir
        have hok : bodies.getD i (Except.ok ()) = Except.ok () := by
          have := hall bodies[i] (List.mem_iff_getElem.mpr ⟨i, hi, rfl⟩)
          simp [List.getD_eq_getElem?_getD, hi, this]
        rw [hok]
        simp [runJob, Except.isOk, Except.toBool]
      have h2 : bodies.any setsAnyFailed = false := by
        rw [List.any_eq_false]
        intro b hb
        rw [hall b hb]
        simp [setsAnyFailed]
      simp [runGenerateBatchExit, h1, h2]
  · unfold runGenerateBatchExit
    split
    · exact Or.inr rfl
    · split
      · exact Or.inr rfl
      · exact Or.inl rfl

lemma retryGo_ok {α : Type} (call : Nat → Except PyExc α) {attempts a : Nat}
    {v : α} (ha : a ≤ attempts) (hc : call a = .ok v) :
    retryGo call attempts a = (.ok v, []) := by
  rw [retryGo]
  simp [Nat.not_lt.mpr ha, hc]

lemma retryGo_fatal {α : Type} (call : Nat → Except PyExc α) {attempts a : Nat}
    {e : PyExc} (ha : a ≤ attempts) (hc : call a = .error e)
    (ht : isTransientError e = false) :
    retryGo call attempts a = (.error e, []) := by
  rw [retryGo]
  simp [Nat.not_lt.mpr ha, hc, ht]

lemma retryGo_last {α : Type} (call : Nat → Except PyExc α) {attempts : Nat}
    {e : PyExc} (hc : call attempts = .error e) :
    retryGo call attempts attempts = (.error e, []) := by
  rw [retryGo]
  simp [hc]

lemma retryGo_step {α : Type} (call : Nat → Except PyExc α) {attempts a : Nat}
    {e : PyExc} (ha : a < attempts) (hc : call a = .error e)
    (ht : isTransientError e = true) :
    retryGo call attempts a
      = ((retryGo call attempts (a + 1)).1,
          backoffDelay e a :: (retryGo call attempts (a + 1)).2) := by
  rw [retryGo]
  simp [Nat.not_lt.mpr (Nat.le_of_lt ha), hc, ht, Nat.ne_of_lt ha]

/-- After a block of transient failures the loop proceeds to the attempt
after the block, accumulating exactly one computed backoff delay per failed
attempt. -/
lemma retryGo_transient_prefix {α : Type} (call : Nat → Except PyExc α)
    (attempts : Nat) (E : Nat → PyExc) :
    ∀ m a, a + m ≤ attempts →
      (∀ i, a ≤ i → i < a + m →
        call i = .error (E i) ∧ isTransientError (E i) = true) →
      retryGo call attempts a
        = ((retryGo call attempts (a + m)).1,
            ((List.range m).map (fun j => backoffDelay (E (a + j)) (a + j)))
              ++ (retryGo call attempts (a + m)).2) := by
  intro m
  induction m with
  | zero =>
    intro a _ _
    simp
  | succ k ih =>
    intro a hle hblock
    have ha : a < attempts := by omega
    have hcall := hblock a (Nat.le_refl a) (by omega)
    have hstep := retryGo_step call ha hcall.1 hcall.2
    have hih := ih (a + 1) (by omega)
      (fun i h1 h2 => hblock i (by omega) (by omega))
    have harith : a + 1 + k = a + (k + 1) := by omega
    have hlist : (backoffDelay (E a) a)
          :: (List.range k).map (fun j => backoffDelay (E (a + 1 + j)) (a + 1 + j))
        = (List.range (k + 1)).map (fun j => backoffDelay (E (a + j)) (a + j)) := by
      rw [List.range_succ_eq_map, List.map_cons, List.map_map]
      have hfun : ((fun j => backoffDelay (E (a + j)) (a + j)) ∘ Nat.succ)
          = fun j => backoffDelay (E (a + 1 + j)) (a + 1 + j) := by
        funext j
        have h : a + Nat.succ j = a + 1 + j := by omega
        simp only [Function.comp_apply, h]
      rw [hfun]
      have h0 : a + 0 = a := by omega
      rw [h0]
    rw [hstep, hih, harith]
    simp only [← hlist, List.cons_append]

/-! ## Claim theorems for C3, C4 and C5 -/

/-- Claim C3: with at least one attempt allowed, a behaviour that raises
transient errors on the first k attempts, k below the maximum, and succeeds
on attempt k plus one, makes the retry controller return the success value;
and a behaviour that raises transient errors on all allowed attempts makes
it propagate the error observed on the final attempt. -/
theorem c3_retry_loop {α : Type} (call : Nat → Except PyExc α)
    (attempts : Nat) (E : Nat → PyExc) (hpos : 1 ≤ attempts) :
    (∀ (k : Nat) (v : α), k < attempts →
      (∀ i, 1 ≤ i → i ≤ k →
        call i = .error (E i) ∧ isTransientError (E i) = true) →
      call (k + 1) = .ok v →
      (generateOneWithRetries call attempts).1 = .ok v)
    ∧ ((∀ i, 1 ≤ i → i ≤ attempts →
        call i = .error (E i) ∧ isTransientError (E i) = true) →
      (generateOneWithRetries call attempts).1 = .error (E attempts)) := by
  constructor
  · intro k v hk hblock hok
    have hpre := retryGo_transient_prefix call attempts E k 1 (by omega)
      (fun i h1 h2 => hblock i h1 (by omega))
    unfold generateOneWithRetries
    rw [hpre]
    have h1k : 1 + k = k + 1 := by omega
    rw [h1k, retryGo_ok call (by omega) hok]
  · intro hblock
    have hpre := retryGo_transient_prefix call attempts E (attempts - 1) 1 (by omega)
      (fun i h1 h2 => hblock i h1 (by omega))
    unfold generateOneWithRetries
    rw [hpre]
    have hfin : 1 + (attempts - 1) = attempts := by omega
    rw [hfin, retryGo_last call (hblock attempts (by omega) (by omega)).1]

theorem c3_retry_loop_witness :
    (generateOneWithRetries witnessCallC3 3).1 = .ok 42
      ∧ (generateOneWithRetries witnessCallC3Fail 2).1
          = .error witnessTransientExc := by
  constructor
  · refine (c3_retry_loop witnessCallC3 3 (fun _ => witnessTransientExc)
      (by omega)).1 2 42 (by omega) ?_ (by decide)
    intro i h1 h2
    interval_cases i <;> exact ⟨by decide, by decide⟩
  · refine (c3_retry_loop witnessCallC3Fail 2 (fun _ => witnessTransientExc)
      (by omega)).2 ?_
    intro i h1 h2
    interval_cases i <;> exact ⟨by decide, by decide⟩

/-- Claim C4 counterexample: an exception whose class name contains tempor,
for example TemporaryFailure, with a message carrying none of the transient
markers, is classified transient by the source although it is neither rate
limited, nor a timeout, nor a connection reset, so the classification of the
claim does not hold exactly. -/
theorem c4_counterexample :
    isTransientError
        { className := "TemporaryFailure", message := "boom",
          retryAfterAttr := none, retryAfterSecondsAttr := none } = true
      ∧ specTransientC4
          { className := "TemporaryFailure", message := "boom",
            retryAfterAttr := none, retryAfterSecondsAttr := none } = false := by
  exact ⟨by decide, by decide⟩

/-- Claim C4 (amended): an error is classified transient exactly when it is
rate limited, a timeout, a connection reset, or its class name contains
tempor (for example a temporary failure class); every other error is fatal
and, whenever it is observed after a block of transient failures, it
propagates immediately from the attempt that observed it, with no retry and
no backoff sleep beyond the delays of the earlier transient attempts. -/
theorem c4_transient_classification {α : Type} :
    (∀ e : PyExc,
      isTransientError e
        = (specTransientC4 e || containsSub (strLower e.className) "tempor"))
    ∧ (∀ (call : Nat → Except PyExc α) (attempts : Nat) (E : Nat → PyExc)
        (e : PyExc) (k : Nat), 1 ≤ k → k ≤ attempts →
      (∀ i, 1 ≤ i → i < k →
        call i = .error (E i) ∧ isTransientError (E i) = true) →
      call k = .error e → isTransientError e = false →
      generateOneWithRetries call attempts
        = (.error e,
            (List.range (k - 1)).map
              (fun j => backoffDelay (E (1 + j)) (1 + j)))) := by
  constructor
  · intro e
    unfold isTransientError specTransientC4
    by_cases hrl : isRateLimitError e = true
    · simp [hrl]
    · rw [Bool.not_eq_true] at hrl
      simp only [hrl]
      cases h1 : containsSub (strLower e.className) "timeout" <;>
        cases h2 : containsSub (strLower e.className) "timedout" <;>
        cases h3 : containsSub (strLower e.className) "tempor" <;>
        simp [h1, h2, h3]
  · intro call attempts E e k hk1 hk2 hblock hcall hfatal
    have hpre := retryGo_transient_prefix call attempts E (k - 1) 1 (by omega)
      (fun i h1 h2 => hblock i h1 (by omega))
    unfold generateOneWithRetries
    rw [hpre]
    have hfin : 1 + (k - 1) = k := by omega
    rw [hfin, retryGo_fatal call (by omega) hcall hfatal]
    simp

theorem c4_transient_classification_witness :
    (isTransientError witnessFatalExc
        = (specTransientC4 witnessFatalExc
            || containsSub (strLower witnessFatalExc.className) "tempor"))
      ∧ generateOneWithRetries witnessCallC4 5
          = (.error witnessFatalExc,
              (List.range 1).map
                (fun j => backoffDelay witnessTransientExc (1 + j))) := by
  constructor
  · exact (c4_transient_classification (α := Nat)).1 witnessFatalExc
  · refine (c4_transient_classification (α := Nat)).2 witnessCallC4 5
      (fun _ => witnessTransientExc) witnessFatalExc 2 (by omega) (by omega)
      ?_ (by decide) (by decide)
    intro i h1 h2
    interval_cases i
    exact ⟨by decide, by decide⟩

/-- Claim C5: along a block of retried transient failures on attempts 1
through m, the recorded backoff delay for attempt k equals the retry after
hint extracted from that error when one is available and min 60 (2 to the k)
seconds otherwise; the extraction probes the nonnegative numeric retry after
attribute first, then the retry after seconds attribute, then the retry
after pattern in the error text. -/
theorem c5_backoff_delays {α : Type} (call : Nat → Except PyExc α)
    (attempts m : Nat) (E : Nat → PyExc) (hm : m < attempts)
    (hblock : ∀ i, 1 ≤ i → i ≤ m →
      call i = .error (E i) ∧ isTransientError (E i) = true) :
    ((generateOneWithRetries call attempts).2.take m
        = (List.range m).map
            (fun j =>
              match extractRetryAfterSeconds (E (j + 1)) with
              | some r => r
              | none => min 60 ((2 : ℚ) ^ (j + 1))))
      ∧ (∀ (e : PyExc) (v : ℚ), e.retryAfterAttr = some v → 0 ≤ v →
          extractRetryAfterSeconds e = some v)
      ∧ (∀ (e : PyExc) (w : ℚ),
          attrCandidate e.retryAfterAttr = none →
          e.retryAfterSecondsAttr = some w → 0 ≤ w →
          extractRetryAfterSeconds e = some w)
      ∧ (∀ e : PyExc,
          attrCandidate e.retryAfterAttr = none →
          attrCandidate e.retryAfterSecondsAttr = none →
          extractRetryAfterSeconds e
            = (match searchRetryAfter (strLower e.message).data with
               | some g => pyFloatOfCapture g
               | none => none)) := by
  refine ⟨?_, ?_, ?_, ?_⟩
  · have hpre := retryGo_transient_prefix call attempts E m 1 (by omega)
      (fun i h1 h2 => hblock i h1 (by omega))
    unfold generateOneWithRetries
    rw [hpre]
    have hlen : ((List.range m).map
        (fun j => backoffDelay (E (1 + j)) (1 + j))).length = m := by
      simp
    rw [List.take_left' hlen]
    refine List.map_congr_left ?_
    intro j hj
    have h1j : 1 + j = j + 1 := by omega
    rw [h1j]
    rfl
  · intro e v hattr hv
    unfold extractRetryAfterSeconds
    rw [hattr]
    simp [attrCandidate, hv]
  · intro e w h1 h2 hw
    unfold extractRetryAfterSeconds
    rw [h1, h2]
    simp [attrCandidate, hw]
  · intro e h1 h2
    unfold extractRetryAfterSeconds
    rw [h1, h2]

theorem c5_backoff_delays_witness :
    ((generateOneWithRetries witnessCallC5 5).2.take 3
        = (List.range 3).map
            (fun j =>
              match extractRetryAfterSeconds (witnessCallC5Errors (j + 1)) with
              | some r => r
              | none => min 60 ((2 : ℚ) ^ (j + 1))))
      ∧ extractRetryAfterSeconds witnessHintAttrExc = some 7 := by
  constructor
  · refine (c5_backoff_delays witnessCallC5 5 3 witnessCallC5Errors
      (by omega) ?_).1
    intro i h1 h2
    interval_cases i <;> exact ⟨by decide, by decide⟩
  · exact (c5_backoff_delays witnessCallC5 5 3 witnessCallC5Errors
      (by omega) (by
        intro i h1 h2
        interval_cases i <;> exact ⟨by decide, by decide⟩)).2.1
      witnessHintAttrExc 7 (by decide) (by norm_num)

/-! ## Path lemmas -/

lemma getLast?_mem {α : Type} {l : List α} {a : α} (h : l.getLast? = some a) :
    a ∈ l := by
  have hx := List.mem_getLast?_eq_getLast (l := l) (x := a) (by rw [h]; rfl)
  rcases hx with ⟨hne, rfl⟩
  exact List.getLast_mem hne

lemma splitSlash_ne_nil (l : List Char) : splitSlash l ≠ [] := by
  induction l with
  | nil => simp [splitSlash]
  | cons c rest ih =>
    rw [splitSlash]
    cases h : splitSlash rest with
    | nil => exact absurd h ih
    | cons hd tl => by_cases hc : c = '/' <;> simp [hc]

lemma mem_splitSlash_no_slash (l : List Char) :
    ∀ p ∈ splitSlash l, '/' ∉ p := by
  induction l with
  | nil =>
    intro p hp
    simp [splitSlash] at hp
    simp [hp]
  | cons c rest ih =>
    intro p hp
    rw [splitSlash] at hp
    cases h : splitSlash rest with
    | nil => exact absurd h (splitSlash_ne_nil rest)
    | cons hd tl =>
      rw [h] at hp
      have hhd : hd ∈ splitSlash rest := by rw [h]; exact List.mem_cons_self hd tl
      by_cases hc : c = '/'
      · simp [hc] at hp
        rcases hp with hp | hp | hp
        · simp [hp]
        · exact hp ▸ ih hd hhd
        · exact ih p (by rw [h]; exact List.mem_cons_of_mem hd hp)
      · simp [hc] at hp
        rcases hp with hp | hp
        · rw [hp]
          intro hmem
          rcases List.mem_cons.mp hmem with heq | hmem2
          · exact hc heq.symm
          · exact ih hd hhd hmem2
        · exact ih p (by rw [h]; exact List.mem_cons_of_mem hd hp)

lemma splitSlash_no_slash (l : List Char) (h : '/' ∉ l) : splitSlash l = [l] := by
  induction l with
  | nil => rfl
  | cons c rest ih =>
    have hc : c ≠ '/' := fun hc => h (hc ▸ List.mem_cons_self c rest)
    have hr : '/' ∉ rest := fun hm => h (List.mem_cons_of_mem c hm)
    rw [splitSlash, ih hr]
    simp [hc]

lemma pathParts_single (nm : List Char) (h1 : '/' ∉ nm) (h2 : nm ≠ [])
    (h3 : nm ≠ ['.']) : pathParts (String.mk nm) = [nm] := by
  have hdata : (String.mk nm).data = nm := rfl
  rw [pathParts, hdata, splitSlash_no_slash nm h1]
  simp [h2, h3]

lemma pathNameOf_props (s : String) (h : pathNameOf s ≠ []) :
    '/' ∉ pathNameOf s ∧ pathNameOf s ≠ ['.'] := by
  rcases hl : (pathParts s).getLast? with _ | nm
  · rw [pathNameOf, hl] at h
    simp at h
  · have hval : pathNameOf s = nm := by rw [pathNameOf, hl]
    have hmem : nm ∈ pathParts s := getLast?_mem hl
    rw [pathParts] at hmem
    have hf := List.mem_filter.mp hmem
    have hprops := of_decide_eq_true hf.2
    rw [hval]
    exact ⟨mem_splitSlash_no_slash s.data nm hf.1, hprops.2⟩

lemma pathNameOf_mk (nm : List Char) (h1 : '/' ∉ nm) (h2 : nm ≠ [])
    (h3 : nm ≠ ['.']) : pathNameOf (String.mk nm) = nm := by
  rw [pathNameOf, pathParts_single nm h1 h2 h3]
  rfl

lemma takeWhile_dropWhile_no_dot (xs rest : List Char)
    (h : ∀ c ∈ xs, c ≠ '.') :
    (xs ++ '.' :: rest).takeWhile (fun c => c != '.') = xs
      ∧ (xs ++ '.' :: rest).dropWhile (fun c => c != '.') = '.' :: rest := by
  induction xs with
  | nil => simp
  | cons x xs ih =>
    have hx : (x != '.') = true := by
      simp [h x (List.mem_cons_self x xs)]
    have hrest := ih (fun c hc => h c (List.mem_cons_of_mem x hc))
    simp only [List.cons_append, List.takeWhile_cons, List.dropWhile_cons, hx]
    simp [hrest.1, hrest.2]

lemma nameSuffixStem_split (a b : List Char) (ha : a ≠ []) (hb : b ≠ [])
    (hnd : ∀ c ∈ b, c ≠ '.') :
    nameSuffixStem (a ++ '.' :: b) = (a, '.' :: b) := by
  have hrev : (a ++ '.' :: b).reverse = b.reverse ++ '.' :: a.reverse := by
    simp
  have hspan := takeWhile_dropWhile_no_dot b.reverse a.reverse
    (fun c hc => hnd c (List.mem_reverse.mp hc))
  rw [nameSuffixStem, hrev, List.span_eq_take_drop, hspan.1, hspan.2]
  have hra : a.reverse ≠ [] := by simpa using ha
  have hrb : b.reverse ≠ [] := by simpa using hb
  simp [hra, hrb]

lemma natDigits_lt10 (n : Nat) (h : n < 10) : natDigits n = [Nat.digitChar n] := by
  rw [natDigits]
  simp [h]

lemma natDigits_ge10 (n : Nat) (h : 10 ≤ n) :
    natDigits n = natDigits (n / 10) ++ [Nat.digitChar (n % 10)] := by
  rw [natDigits]
  simp [Nat.not_lt.mpr h]

lemma digitChar_val : ∀ d < 10, (Nat.digitChar d).toNat - 48 = d := by decide

lemma natFromDigits_append_one (ds : List Char) (c : Char) :
    natFromDigits (ds ++ [c]) = 10 * natFromDigits ds + (c.toNat - 48) := by
  simp [natFromDigits, List.foldl_append]

lemma natFromDigits_natDigits (n : Nat) :
    natFromDigits (natDigits n) = n := by
  induction n using Nat.strong_induction_on with
  | _ n ih =>
    by_cases h : n < 10
    · rw [natDigits_lt10 n h]
      have h1 : natFromDigits [Nat.digitChar n] = (Nat.digitChar n).toNat - 48 := by
        simp [natFromDigits]
      rw [h1, digitChar_val n h]
    · have h10 : 10 ≤ n := by omega
      rw [natDigits_ge10 n h10, natFromDigits_append_one,
        ih (n / 10) (Nat.div_lt_self (by omega) (by omega)),
        digitChar_val (n % 10) (Nat.mod_lt n (by omega))]
      omega

lemma natDigits_inj {m n : Nat} (h : natDigits m = natDigits n) : m = n := by
  have hc := congrArg natFromDigits h
  rwa [natFromDigits_natDigits, natFromDigits_natDigits] at hc

lemma natFromDigits_zero_cons (l : List Char) :
    natFromDigits ('0' :: l) = natFromDigits l := by
  have hz : (10 * 0 + ('0'.toNat - 48)) = 0 := rfl
  simp only [natFromDigits, List.foldl_cons, hz]

lemma natFromDigits_pad3 (n : Nat) : natFromDigits (pad3 n) = n := by
  rw [pad3]
  split_ifs with h1 h2
  · rw [natFromDigits_zero_cons, natFromDigits_zero_cons, natFromDigits_natDigits]
  · rw [natFromDigits_zero_cons, natFromDigits_natDigits]
  · exact natFromDigits_natDigits n

lemma pad3_inj {m n : Nat} (h : pad3 m = pad3 n) : m = n := by
  have hc := congrArg natFromDigits h
  rwa [natFromDigits_pad3, natFromDigits_pad3] at hc

lemma pad3_length (n : Nat) (h : n ≤ 999) : (pad3 n).length = 3 := by
  rw [pad3]
  split_ifs with h1 h2
  · simp [natDigits_lt10 n h1]
  · rw [natDigits_ge10 n (by omega), natDigits_lt10 (n / 10) (by omega)]
    simp
  · rw [natDigits_ge10 n (by omega), natDigits_ge10 (n / 10) (by omega),
      natDigits_lt10 (n / 10 / 10) (by omega)]
    simp

lemma jobOutputPaths_noHint (outDir : PyPath) (fmt : String) (idx : Nat)
    (prompt : String) (n : Nat) :
    jobOutputPaths outDir fmt idx prompt n none
      = some (if n = 1 then [outDir ++ [noHintBase fmt idx prompt]]
          else (List.range n).map (fun k =>
            outDir ++ [nameStem (noHintBase fmt idx prompt)
              ++ '-' :: natDigits (k + 1)
              ++ nameSuffix (noHintBase fmt idx prompt)])) := by
  by_cases h : n = 1 <;>
    simp [jobOutputPaths, jobBaseName, explicitHint, noHintBase, h]

lemma noHintBase_assoc (fmt : String) (idx : Nat) (prompt : String) :
    noHintBase fmt idx prompt
      = (pad3 idx ++ '-' :: slugify (prompt.data.take 80)) ++ '.' :: fmt.data := by
  simp [noHintBase]

lemma noHintBase_stem_suffix (fmt : String) (idx : Nat) (prompt : String)
    (hb : fmt.data ≠ []) (hnd : ∀ c ∈ fmt.data, c ≠ '.') :
    nameSuffixStem (noHintBase fmt idx prompt)
      = (pad3 idx ++ '-' :: slugify (prompt.data.take 80), '.' :: fmt.data) := by
  rw [noHintBase_assoc]
  exact nameSuffixStem_split _ _ (by simp) hb hnd

/-- Every path planned for a job without a hint sits directly under the
output directory under a name whose first three characters render the
sequence index. -/
lemma jobOutputPaths_noHint_mem (outDir : PyPath) (fmt : String) (idx : Nat)
    (prompt : String) (n : Nat) (li : List PyPath) (p : PyPath)
    (heq : jobOutputPaths outDir fmt idx prompt n none = some li)
    (hp : p ∈ li) (hidx : idx ≤ 999)
    (hb : fmt.data ≠ []) (hnd : ∀ c ∈ fmt.data, c ≠ '.') :
    ∃ nm, p = outDir ++ [nm] ∧ nm.take 3 = pad3 idx := by
  rw [jobOutputPaths_noHint] at heq
  have hli := Option.some.inj heq
  subst hli
  by_cases h1 : n = 1
  · simp [h1] at hp
    refine ⟨noHintBase fmt idx prompt, hp, ?_⟩
    rw [noHintBase_assoc, List.append_assoc]
    exact List.take_left' (pad3_length idx hidx)
  · simp only [if_neg h1, List.mem_map] at hp
    rcases hp with ⟨k, _, rfl⟩
    refine ⟨_, rfl, ?_⟩
    have hstem : nameStem (noHintBase fmt idx prompt)
        = pad3 idx ++ '-' :: slugify (prompt.data.take 80) := by
      rw [nameStem, noHintBase_stem_suffix fmt idx prompt hb hnd]
    rw [hstem, List.append_assoc, List.append_assoc]
    rw [← List.append_assoc ('-' :: slugify (prompt.data.take 80))]
    exact List.take_left' (pad3_length idx hidx)

/-- The sibling names of a multi image job are pairwise distinct: they
differ in the rendered image number. -/
lemma planned_map_nodup (outDir : PyPath) (S X : List Char) (n : Nat) :
    ((List.range n).map
      (fun k => outDir ++ [S ++ '-' :: natDigits (k + 1) ++ X])).Nodup := by
  refine List.Nodup.map ?_ (List.nodup_range n)
  intro k k' hkk
  have h1 : ([S ++ '-' :: natDigits (k + 1) ++ X] : List (List Char))
      = [S ++ '-' :: natDigits (k' + 1) ++ X] :=
    List.append_cancel_left hkk
  have h2 : S ++ '-' :: natDigits (k + 1) ++ X
      = S ++ '-' :: natDigits (k' + 1) ++ X := by
    simpa using h1
  rw [List.append_assoc, List.append_assoc] at h2
  have h3 := List.append_cancel_left h2
  have h4 : natDigits (k + 1) ++ X = natDigits (k' + 1) ++ X := by
    simpa using h3
  have h5 := List.append_cancel_right h4
  have h6 := natDigits_inj h5
  omega

/-- The list of paths planned for one job never repeats a path. -/
lemma jobOutputPaths_nodup (outDir : PyPath) (fmt : String) (idx : Nat)
    (prompt : String) (n : Nat) (eo : Option String) (li : List PyPath)
    (heq : jobOutputPaths outDir fmt idx prompt n eo = some li) :
    li.Nodup := by
  rw [jobOutputPaths] at heq
  rcases hbase : jobBaseName fmt eo idx prompt with _ | base
  · rw [hbase] at heq
    exact absurd heq (by simp)
  · rw [hbase] at heq
    simp only [] at heq
    by_cases h1 : n = 1
    · rw [if_pos h1] at heq
      have hli := Option.some.inj heq
      subst hli
      simp
    · rw [if_neg h1] at heq
      have hli := Option.some.inj heq
      subst hli
      exact planned_map_nodup outDir (nameStem base) (nameSuffix base) n

/-! ## Claim theorems for C6 and C8 -/

/-- Claim C6 counterexample: two jobs that supply the same explicit output
hint are planned onto the same path, so the paths of a batch are not always
pairwise distinct. -/
theorem c6_counterexample :
    ¬ (batchPlannedPaths [] "png"
        [("a", 1, some "o.png"), ("b", 1, some "o.png")]).Nodup := by
  decide

/-- Claim C6 (amended): for a batch in which no job supplies an explicit
output hint (at most 999 jobs, a nonempty dot free format extension), the
planned output paths across the entire batch are pairwise distinct; and for
every job with n of at least two, hinted or not, the n planned paths differ
only by the hyphen and image number 1 through n inserted before the
extension of one base name. -/
theorem c6_output_paths (outDir : PyPath) (fmt : String) (jobs : List JobSpec)
    (hb : fmt.data ≠ []) (hnd : ∀ c ∈ fmt.data, c ≠ '.')
    (hlen : jobs.length ≤ 999)
    (hnone : ∀ j ∈ jobs, j.2.2 = none) :
    (batchPlannedPaths outDir fmt jobs).Nodup
      ∧ (∀ (idx : Nat) (prompt : String) (n : Nat) (eo : Option String)
          (li : List PyPath),
          jobOutputPaths outDir fmt idx prompt n eo = some li → 2 ≤ n →
          ∃ b, li = (List.range n).map
            (fun k => outDir ++ [nameStem b ++ '-' :: natDigits (k + 1)
              ++ nameSuffix b])) := by
  constructor
  · rw [batchPlannedPaths, List.nodup_flatMap]
    constructor
    · intro i hi
      have hhint : (jobs.getD i ("", 1, none)).2.2 = none := by
        have hlt := List.mem_range.mp hi
        have hgd : jobs.getD i ("", 1, none) = jobs[i] := by
          simp [List.getD_eq_getElem?_getD, hlt]
        rw [hgd]
        exact hnone jobs[i] (List.getElem_mem hlt)
      have hsome := jobOutputPaths_noHint outDir fmt (i + 1)
        (jobs.getD i ("", 1, none)).1 (jobs.getD i ("", 1, none)).2.1
      rw [hhint, hsome, Option.getD_some]
      exact jobOutputPaths_nodup outDir fmt (i + 1) _ _ none _ hsome
    · refine List.Pairwise.imp_of_mem ?_ (List.pairwise_lt_range jobs.length)
      intro i j hi hj hij p hpi hpj
      have hilen : i < jobs.length := List.mem_range.mp hi
      have hjlen : j < jobs.length := List.mem_range.mp hj
      have hhi : (jobs.getD i ("", 1, none)).2.2 = none := by
        have hgd : jobs.getD i ("", 1, none) = jobs[i] := by
          simp [List.getD_eq_getElem?_getD, hilen]
        rw [hgd]
        exact hnone jobs[i] (List.getElem_mem hilen)
      have hhj : (jobs.getD j ("", 1, none)).2.2 = none := by
        have hgd : jobs.getD j ("", 1, none) = jobs[j] := by
          simp [List.getD_eq_getElem?_getD, hjlen]
        rw [hgd]
        exact hnone jobs[j] (List.getElem_mem hjlen)
      simp only [] at hpi hpj
      rw [hhi] at hpi
      rw [hhj] at hpj
      have hsome_i := jobOutputPaths_noHint outDir fmt (i + 1)
        (jobs.getD i ("", 1, none)).1 (jobs.getD i ("", 1, none)).2.1
      have hsome_j := jobOutputPaths_noHint outDir fmt (j + 1)
        (jobs.getD j ("", 1, none)).1 (jobs.getD j ("", 1, none)).2.1
      rw [hsome_i, Option.getD_some] at hpi
      rw [hsome_j, Option.getD_some] at hpj
      rcases jobOutputPaths_noHint_mem outDir fmt (i + 1) _ _ _ p hsome_i hpi
        (by omega) hb hnd with ⟨nmi, hpieq, htakei⟩
      rcases jobOutputPaths_noHint_mem outDir fmt (j + 1) _ _ _ p hsome_j hpj
        (by omega) hb hnd with ⟨nmj, hpjeq, htakej⟩
      have hnm : nmi = nmj := by
        have := hpieq.symm.trans hpjeq
        have hc := List.append_cancel_left this
        simpa using hc
      have hpad : pad3 (i + 1) = pad3 (j + 1) := by
        rw [← htakei, ← htakej, hnm]
      have := pad3_inj hpad
      omega
  · intro idx prompt n eo li heq hn
    rw [jobOutputPaths] at heq
    rcases hbase : jobBaseName fmt eo idx prompt with _ | base
    · rw [hbase] at heq
      exact absurd heq (by simp)
    · rw [hbase] at heq
      simp only [] at heq
      rw [if_neg (by omega)] at heq
      exact ⟨base, (Option.some.inj heq).symm⟩

theorem c6_output_paths_witness :
    (batchPlannedPaths [] "png" [("", 1, none), ("x", 2, none)]).Nodup :=
  (c6_output_paths [] "png" [("", 1, none), ("x", 2, none)]
    (by decide) (by decide) (by decide) (by decide)).1

/-- Claim C8: for a job with an explicit output hint whose filename
component is nonempty, the planned paths depend only on that filename
component (directory components, including dot dot traversal, are ignored),
every planned path sits directly under the run output directory, a hint
without an extension gets the resolved format extension appended, and a hint
with an extension keeps it, mismatched or not, the planner still returning
paths (the extension warning is non fatal and not part of the result). -/
theorem c8_explicit_hint (outDir : PyPath) (fmt : String) (idx : Nat)
    (prompt : String) (n : Nat) (hint : String)
    (hne : hint ≠ "") (hname : pathNameOf hint ≠ []) :
    (jobOutputPaths outDir fmt idx prompt n (some hint)
        = jobOutputPaths outDir fmt idx prompt n
            (some (String.mk (pathNameOf hint))))
      ∧ (∃ li, jobOutputPaths outDir fmt idx prompt n (some hint) = some li
          ∧ ∀ p ∈ li, ∃ nm, p = outDir ++ [nm])
      ∧ (nameSuffix (pathNameOf hint) = [] → n = 1 →
          jobOutputPaths outDir fmt idx prompt n (some hint)
            = some [outDir ++ [pathNameOf hint ++ '.' :: fmt.data]])
      ∧ (nameSuffix (pathNameOf hint) ≠ [] → n = 1 →
          jobOutputPaths outDir fmt idx prompt n (some hint)
            = some [outDir ++ [pathNameOf hint]]) := by
  rcases pathNameOf_props hint hname with ⟨hslash, hdot⟩
  have hmk : pathNameOf (String.mk (pathNameOf hint)) = pathNameOf hint :=
    pathNameOf_mk _ hslash hname hdot
  have hmkne : String.mk (pathNameOf hint) ≠ "" := by
    intro hcon
    exact hname (congrArg String.data hcon)
  have hbase : jobBaseName fmt (some hint) idx prompt
      = jobBaseName fmt (some (String.mk (pathNameOf hint))) idx prompt := by
    rw [jobBaseName, jobBaseName]
    simp only [explicitHint, if_neg hne, if_neg hmkne, hmk]
  refine ⟨?_, ?_, ?_, ?_⟩
  · rw [jobOutputPaths, jobOutputPaths, hbase]
  · rw [jobOutputPaths]
    rcases hb : jobBaseName fmt (some hint) idx prompt with _ | base
    · exfalso
      rw [jobBaseName] at hb
      simp only [explicitHint, if_neg hne] at hb
      by_cases hsfx : nameSuffix (pathNameOf hint) = []
      · rw [if_pos hsfx, if_neg hname] at hb
        exact Option.noConfusion hb
      · rw [if_neg hsfx] at hb
        exact Option.noConfusion hb
    · by_cases h1 : n = 1
      · refine ⟨[outDir ++ [base]], by simp [h1], ?_⟩
        intro p hp
        simp at hp
        exact ⟨base, hp⟩
      · refine ⟨(List.range n).map
            (fun k => outDir ++ [nameStem base ++ '-' :: natDigits (k + 1)
              ++ nameSuffix base]), by simp [h1], ?_⟩
        intro p hp
        simp only [List.mem_map] at hp
        rcases hp with ⟨k, _, rfl⟩
        exact ⟨_, rfl⟩
  · intro hsfx h1
    have hb : jobBaseName fmt (some hint) idx prompt
        = some (pathNameOf hint ++ '.' :: fmt.data) := by
      rw [jobBaseName]
      simp only [explicitHint, if_neg hne, if_pos hsfx, if_neg hname]
    rw [jobOutputPaths, hb]
    simp [h1]
  · intro hsfx h1
    have hb : jobBaseName fmt (some hint) idx prompt
        = some (pathNameOf hint) := by
      rw [jobBaseName]
      simp only [explicitHint, if_neg hne, if_neg hsfx]
    rw [jobOutputPaths, hb]
    simp [h1]

theorem c8_explicit_hint_witness :
    (jobOutputPaths [] "png" 1 "p" 1 (some "a/../img.png")
        = jobOutputPaths [] "png" 1 "p" 1 (some (String.mk (pathNameOf "a/../img.png"))))
      ∧ (nameSuffix (pathNameOf "a/../img.png") ≠ [] →
          (1 : Nat) = 1 →
          jobOutputPaths [] "png" 1 "p" 1 (some "a/../img.png")
            = some [[] ++ [pathNameOf "a/../img.png"]]) :=
  ⟨(c8_explicit_hint [] "png" 1 "p" 1 "a/../img.png" (by decide) (by decide)).1,
   (c8_explicit_hint [] "png" 1 "p" 1 "a/../img.png" (by decide) (by decide)).2.2.2⟩

lemma contains_eq_false_of_not_mem {l : List PyPath} {a : PyPath}
    (h : a ∉ l) : l.contains a = false := by
  rw [List.contains_eq_any_beq, List.any_eq_false]
  intro x hx
  simp
  intro heq
  exact h (heq ▸ hx)

lemma writeGo_ok (outputs : List PyPath) (force : Bool)
    (exists0 : PyPath → Bool) (images : List String) :
    ∀ (idx : Nat) (written : List PyPath),
      (∀ p ∈ (outputs.drop idx).take images.length,
        exists0 p = false ∧ p ∉ written) →
      ((outputs.drop idx).take images.length).Nodup →
      writeGo images idx outputs force exists0 written
        = .ok (written.reverse ++ (outputs.drop idx).take images.length) := by
  induction images with
  | nil =>
    intro idx written _ _
    simp [writeGo]
  | cons img rest ih =>
    intro idx written hfresh hnodup
    rw [writeGo]
    by_cases hle : outputs.length ≤ idx
    · rw [if_pos hle]
      rw [List.drop_eq_nil_of_le hle]
      simp
    · rw [if_neg hle]
      have hlt : idx < outputs.length := by omega
      have hdrop : outputs.drop idx = outputs[idx] :: outputs.drop (idx + 1) :=
        List.drop_eq_getElem_cons hlt
      have hget : outputs.getD idx [] = outputs[idx] := by
        simp [List.getD_eq_getElem?_getD, hlt]
      rw [hdrop, List.length_cons, List.take_succ_cons] at hfresh hnodup
      have hhead := hfresh outputs[idx] (List.mem_cons_self _ _)
      have hcont : (written.contains outputs[idx]) = false :=
        contains_eq_false_of_not_mem hhead.2
      have hcond : ((exists0 (outputs.getD idx [])
          || written.contains (outputs.getD idx [])) && !force) = false := by
        rw [hget, hhead.1, hcont]
        rfl
      simp only [hcond]
      rw [if_neg Bool.false_ne_true]
      have hnodup2 := List.nodup_cons.mp hnodup
      have hrec := ih (idx + 1) (outputs[idx] :: written)
        (fun p hp => ⟨(hfresh p (List.mem_cons_of_mem _ hp)).1, by
          intro hmem
          rcases List.mem_cons.mp hmem with heq | hmem2
          · exact hnodup2.1 (heq ▸ hp)
          · exact (hfresh p (List.mem_cons_of_mem _ hp)).2 hmem2⟩)
        hnodup2.2
      rw [hget, hrec, hdrop, List.length_cons, List.take_succ_cons]
      simp

lemma writeDownGo_none_ok (outputs : List PyPath) (force : Bool)
    (exists0 : PyPath → Bool) (suffix : String) (images : List String) :
    ∀ (idx : Nat) (written : List PyPath),
      (∀ p ∈ (outputs.drop idx).take images.length,
        exists0 p = false ∧ p ∉ written) →
      ((outputs.drop idx).take images.length).Nodup →
      writeDownGo images idx outputs force exists0 none suffix written
        = .ok (written.reverse ++ (outputs.drop idx).take images.length) := by
  induction images with
  | nil =>
    intro idx written _ _
    simp [writeDownGo]
  | cons img rest ih =>
    intro idx written hfresh hnodup
    rw [writeDownGo]
    by_cases hle : outputs.length ≤ idx
    · rw [if_pos hle]
      rw [List.drop_eq_nil_of_le hle]
      simp
    · rw [if_neg hle]
      have hlt : idx < outputs.length := by omega
      have hdrop : outputs.drop idx = outputs[idx] :: outputs.drop (idx + 1) :=
        List.drop_eq_getElem_cons hlt
      have hget : outputs.getD idx [] = outputs[idx] := by
        simp [List.getD_eq_getElem?_getD, hlt]
      rw [hdrop, List.length_cons, List.take_succ_cons] at hfresh hnodup
      have hhead := hfresh outputs[idx] (List.mem_cons_self _ _)
      have hcont : (written.contains outputs[idx]) = false :=
        contains_eq_false_of_not_mem hhead.2
      have hcond : ((exists0 (outputs.getD idx [])
          || written.contains (outputs.getD idx [])) && !force) = false := by
        rw [hget, hhead.1, hcont]
        rfl
      simp only [hcond]
      rw [if_neg Bool.false_ne_true]
      have hnodup2 := List.nodup_cons.mp hnodup
      have hrec := ih (idx + 1) (outputs[idx] :: written)
        (fun p hp => ⟨(hfresh p (List.mem_cons_of_mem _ hp)).1, by
          intro hmem
          rcases List.mem_cons.mp hmem with heq | hmem2
          · exact hnodup2.1 (heq ▸ hp)
          · exact (hfresh p (List.mem_cons_of_mem _ hp)).2 hmem2⟩)
        hnodup2.2
      change writeDownGo rest (idx + 1) outputs force exists0 none suffix
        (outputs.getD idx [] :: written) = _
      rw [hget, hrec, hdrop, List.length_cons, List.take_succ_cons]
      simp

/-- Claim C10: when the remote call returns more images than the planned
output paths, the surplus is silently discarded: both writers write exactly
the first min of returned image count and planned path count files and
return without an error or any record of the extras (given the written
destinations are fresh and pairwise distinct; warnings do not exist in the
writer loop at all). -/
theorem c10_surplus_images (images : List String) (outputs : List PyPath)
    (force : Bool) (exists0 : PyPath → Bool) (suffix : String)
    (hfresh : ∀ p ∈ outputs.take images.length, exists0 p = false)
    (hnodup : (outputs.take images.length).Nodup) :
    decodeWriteAndDownscale images outputs force exists0 none suffix
        = .ok (outputs.take images.length)
      ∧ decodeAndWrite images outputs force exists0
          = .ok (outputs.take images.length)
      ∧ (outputs.take images.length).length
          = min images.length outputs.length := by
  have hfresh0 : ∀ p ∈ (outputs.drop 0).take images.length,
      exists0 p = false ∧ p ∉ ([] : List PyPath) := by
    intro p hp
    rw [List.drop_zero] at hp
    exact ⟨hfresh p hp, by simp⟩
  have hnodup0 : ((outputs.drop 0).take images.length).Nodup := by
    rw [List.drop_zero]
    exact hnodup
  refine ⟨?_, ?_, ?_⟩
  · rw [decodeWriteAndDownscale,
      writeDownGo_none_ok outputs force exists0 suffix images 0 [] hfresh0 hnodup0]
    simp
  · rw [decodeAndWrite,
      writeGo_ok outputs force exists0 images 0 [] hfresh0 hnodup0]
    simp
  · exact List.length_take images.length outputs

theorem c10_surplus_images_witness :
    decodeWriteAndDownscale ["i1", "i2", "i3"]
        [["a.png".data], ["b.png".data]] false (fun _ => false) none "-web"
        = .ok [["a.png".data], ["b.png".data]]
      ∧ (([["a.png".data], ["b.png".data]] : List PyPath).take 3).length
          = min 3 2 := by
  have h := c10_surplus_images ["i1", "i2", "i3"]
    [["a.png".data], ["b.png".data]] false (fun _ => false) "-web"
    (by decide) (by decide)
  exact ⟨by rw [h.1]; decide, h.2.2⟩

end ImageGen
